import Mathlib

/-!
Shallow embedding of `src/streamlit_app.py` (PDF Auto-Renamer).

Strings are modelled as `List Char` (`PyStr`), file contents as `List Nat`
(`Bytes`).  External effects are modelled explicitly:

* PDF parsing (`pypdf.PdfReader`) is an oracle `Bytes → Option PdfDoc`;
  `none` models the constructor raising an exception.
* The summarization pipeline is an oracle returning `Option PyStr`;
  `none` models the inference call raising.
* The transient file of `extract_text_from_pdf` is tracked by a Boolean
  flag in the result: `true` iff `os.unlink` was executed before return.
* The Streamlit session registry `st.session_state.processed_files` is an
  association list keyed by original filename.
-/

/-- Python strings, as lists of characters. -/
abbrev PyStr := List Char

/-- Raw file contents, as lists of bytes. -/
abbrev Bytes := List Nat

/-- ASCII whitespace as recognised by Python's `str.strip` and `re`'s `\s`
(space, tab, newline, carriage return, vertical tab, form feed). -/
def pyIsSpace (c : Char) : Bool :=
  c = ' ' || c = '\t' || c = '\n' || c = '\r' || c = '\x0b' || c = '\x0c'

/-- Python `str.strip()`: drop leading and trailing whitespace. -/
def pyStrip (s : PyStr) : PyStr :=
  ((s.dropWhile pyIsSpace).reverse.dropWhile pyIsSpace).reverse

/-- Worker for `collapseWs`; the flag records whether the previous character
consumed was part of a whitespace run already emitted as a single space. -/
def collapseWsAux : Bool → PyStr → PyStr
  | _, [] => []
  | prevSpace, c :: rest =>
    if pyIsSpace c then
      if prevSpace then collapseWsAux true rest
      else ' ' :: collapseWsAux true rest
    else c :: collapseWsAux false rest

/-- Python `re.sub(r'\s+', ' ', s)`: replace each maximal whitespace run by a
single space. -/
def collapseWs (s : PyStr) : PyStr := collapseWsAux false s

/-- Python `s.split('.')[0]`: the prefix of `s` before the first period. -/
def splitDot0 (s : PyStr) : PyStr := s.takeWhile (fun c => c != '.')

/-- The post-processing of `get_title_using_ai` (lines 56-58 of
`streamlit_app.py`): strip, collapse whitespace runs, cut at the first
period. -/
def titlePost (summary : PyStr) : PyStr := splitDot0 (collapseWs (pyStrip summary))

/-- `get_title_using_ai` (lines 46-63): feed the first 1024 characters of the
text to the summarizer and post-process its output; an inference exception
(`none` from the oracle) is caught and yields `None`. -/
def get_title_using_ai (summarize : PyStr → Option PyStr) (text : PyStr) :
    Option PyStr :=
  match summarize (text.take 1024) with
  | none => none
  | some summary => some (titlePost summary)

/-- `s` has no two consecutive whitespace characters. -/
def noDoubleWs : PyStr → Bool
  | c1 :: c2 :: rest => (!(pyIsSpace c1 && pyIsSpace c2)) && noDoubleWs (c2 :: rest)
  | _ => true

theorem noDoubleWs_cons_of (c : Char) (l : PyStr)
    (h1 : noDoubleWs l = true)
    (h2 : ∀ c2, l.head? = some c2 → (pyIsSpace c && pyIsSpace c2) = false) :
    noDoubleWs (c :: l) = true := by
  cases l with
  | nil => rfl
  | cons c2 rest =>
    have := h2 c2 rfl
    simp [noDoubleWs, h1, this]

theorem collapseWsAux_true_head (l : PyStr) :
    ∀ c, (collapseWsAux true l).head? = some c → pyIsSpace c = false := by
  induction l with
  | nil => intro c h; simp [collapseWsAux] at h
  | cons a rest ih =>
    intro c h
    by_cases ha : pyIsSpace a
    · rw [show collapseWsAux true (a :: rest) = collapseWsAux true rest by
        simp [collapseWsAux, ha]] at h
      exact ih c h
    · rw [show collapseWsAux true (a :: rest) = a :: collapseWsAux false rest by
        simp [collapseWsAux, ha]] at h
      simp only [List.head?_cons, Option.some.injEq] at h
      rw [← h]
      simpa using ha

theorem noDoubleWs_collapseWsAux (l : PyStr) :
    ∀ b, noDoubleWs (collapseWsAux b l) = true := by
  induction l with
  | nil => intro b; rfl
  | cons a rest ih =>
    intro b
    by_cases ha : pyIsSpace a
    · cases b with
      | true =>
        rw [show collapseWsAux true (a :: rest) = collapseWsAux true rest by
          simp [collapseWsAux, ha]]
        exact ih true
      | false =>
        rw [show collapseWsAux false (a :: rest) = ' ' :: collapseWsAux true rest by
          simp [collapseWsAux, ha]]
        refine noDoubleWs_cons_of _ _ (ih true) ?_
        intro c2 hc2
        have := collapseWsAux_true_head rest c2 hc2
        simp [this]
    · rw [show collapseWsAux b (a :: rest) = a :: collapseWsAux false rest by
        simp [collapseWsAux, ha]]
      refine noDoubleWs_cons_of _ _ (ih false) ?_
      intro c2 _
      simp [show pyIsSpace a = false by simpa using ha]

theorem noDoubleWs_append_left (l1 l2 : PyStr)
    (h : noDoubleWs (l1 ++ l2) = true) : noDoubleWs l1 = true := by
  induction l1 with
  | nil => rfl
  | cons c1 t ih =>
    cases t with
    | nil => rfl
    | cons c2 rest =>
      simp only [List.cons_append, noDoubleWs, Bool.and_eq_true] at h ⊢
      exact ⟨h.1, ih h.2⟩

theorem noDoubleWs_takeWhile (p : Char → Bool) (l : PyStr)
    (h : noDoubleWs l = true) : noDoubleWs (l.takeWhile p) = true :=
  noDoubleWs_append_left _ _ (by rw [List.takeWhile_append_dropWhile]; exact h)

/-- C3: any non-`None` output of `get_title_using_ai` contains no two
consecutive whitespace characters and contains no period. -/
theorem get_title_no_double_ws_no_period
    (summarize : PyStr → Option PyStr) (text title : PyStr)
    (h : get_title_using_ai summarize text = some title) :
    noDoubleWs title = true ∧ '.' ∉ title := by
  unfold get_title_using_ai at h
  cases hs : summarize (text.take 1024) with
  | none => rw [hs] at h; exact absurd h (by simp)
  | some summary =>
    rw [hs] at h
    simp only [Option.some.injEq] at h
    subst h
    constructor
    · exact noDoubleWs_takeWhile _ _ (noDoubleWs_collapseWsAux _ false)
    · intro hmem
      have := List.mem_takeWhile_imp hmem
      simp at this

/-- Witness for C3 at a concrete summarizer output. -/
theorem get_title_no_double_ws_no_period_witness :
    noDoubleWs ('a' :: ' ' :: 'b' :: []) = true ∧
      '.' ∉ ('a' :: ' ' :: 'b' :: ([] : PyStr)) :=
  get_title_no_double_ws_no_period
    (fun _ => some (' ' :: 'a' :: ' ' :: ' ' :: 'b' :: '.' :: 'c' :: []))
    [] ('a' :: ' ' :: 'b' :: []) (by decide)

/-- A parsed PDF document: the list of its pages' extracted texts. -/
structure PdfDoc where
  pages : List PyStr
deriving DecidableEq

/-- `extract_text_from_pdf` (lines 25-44).  `parsePdf` models
`PdfReader(tmp_file_path)`: `none` means the constructor raised.  The second
component of the result is `true` iff `os.unlink(tmp_file_path)` (line 33)
ran before the function returned.  In the source, the `unlink` sits after the
`PdfReader` call, so a parse exception jumps straight to the `except` block
and the flag stays `false`. -/
def extract_text_from_pdf (parsePdf : Bytes → Option PdfDoc) (pdfBytes : Bytes) :
    Option PyStr × Bool :=
  match parsePdf pdfBytes with
  | none => (none, false)
  | some reader =>
    match reader.pages with
    | [] => (none, true)
    | text :: _ => (if (pyStrip text).isEmpty then none else some text, true)

/-- C1: the claim says the transient file is deleted on every exit path,
including any parse exception.  Evaluating the extractor at bytes the parser
rejects shows the deletion flag is `false` there: the `os.unlink` on line 33
is skipped when `PdfReader` raises, so the temporary file leaks. -/
theorem extract_tmp_not_deleted_on_parse_error :
    extract_text_from_pdf (fun _ => none) (110 :: 111 :: 116 :: []) =
      (none, false) := rfl

/-- C2 counterexample: for a first page whose rendered text is `" A "`, the
extractor returns that text unchanged, beginning with a whitespace character;
the claimed result (a trimmed string with no leading or trailing whitespace)
is false. -/
theorem extract_text_not_trimmed_cex :
    (extract_text_from_pdf
        (fun _ => some (PdfDoc.mk ((' ' :: 'A' :: ' ' :: []) :: []))) []).1 =
      some (' ' :: 'A' :: ' ' :: []) ∧ pyIsSpace ' ' = true := by
  decide

/-- C2 (amended): for every PDF that parses and whose first page's text does
not strip to empty, the extractor returns that text exactly as rendered —
untrimmed, so it may retain leading or trailing whitespace. -/
theorem extract_text_returns_page_text_unchanged
    (parsePdf : Bytes → Option PdfDoc) (b : Bytes) (d : PdfDoc)
    (text : PyStr) (rest : List PyStr)
    (hp : parsePdf b = some d) (hpg : d.pages = text :: rest)
    (hne : (pyStrip text).isEmpty = false) :
    (extract_text_from_pdf parsePdf b).1 = some text := by
  simp [extract_text_from_pdf, hp, hpg, hne]

/-- Witness for the amended C2 at a concrete one-page document. -/
theorem extract_text_returns_page_text_unchanged_witness :
    (extract_text_from_pdf
        (fun _ => some (PdfDoc.mk ((' ' :: 'A' :: []) :: []))) []).1 =
      some (' ' :: 'A' :: []) :=
  extract_text_returns_page_text_unchanged
    (fun _ => some (PdfDoc.mk ((' ' :: 'A' :: []) :: []))) []
    (PdfDoc.mk ((' ' :: 'A' :: []) :: [])) (' ' :: 'A' :: []) []
    rfl rfl (by decide)

/-- C4: whenever the bytes fail to parse, or the document has zero pages, or
the first page's text strips to empty, `extract_text_from_pdf` returns the
"no text" result `none`; being a total function of its inputs, it never
raises past its boundary (the `except` block is the `none` branch of the
parse oracle). -/
theorem extract_text_none_on_degenerate
    (parsePdf : Bytes → Option PdfDoc) (b : Bytes)
    (h : parsePdf b = none
        ∨ (∃ d, parsePdf b = some d ∧ d.pages = [])
        ∨ (∃ d t rest, parsePdf b = some d ∧ d.pages = t :: rest ∧
            (pyStrip t).isEmpty = true)) :
    (extract_text_from_pdf parsePdf b).1 = none := by
  rcases h with h | ⟨d, hp, hpg⟩ | ⟨d, t, rest, hp, hpg, ht⟩ <;>
    simp [extract_text_from_pdf, *]

/-- Witness for C4 at a whitespace-only first page. -/
theorem extract_text_none_on_degenerate_witness :
    (extract_text_from_pdf
        (fun _ => some (PdfDoc.mk ((' ' :: ' ' :: []) :: []))) []).1 = none :=
  extract_text_none_on_degenerate
    (fun _ => some (PdfDoc.mk ((' ' :: ' ' :: []) :: []))) []
    (Or.inr (Or.inr ⟨PdfDoc.mk ((' ' :: ' ' :: []) :: []), ' ' :: ' ' :: [], [],
      rfl, rfl, by decide⟩))

/-- One value of `st.session_state.processed_files` (lines 107-111): the
uploaded bytes, the proposed file name, and the original file name. -/
structure Entry where
  content : Bytes
  proposed_name : PyStr
  original_name : PyStr
deriving DecidableEq

/-- The session registry `st.session_state.processed_files`: an insertion-
ordered mapping from original filename to entry. -/
abbrev Registry := List (PyStr × Entry)

/-- Dictionary lookup `st.session_state.processed_files[name]` /
`name in st.session_state.processed_files`. -/
def regLookup : Registry → PyStr → Option Entry
  | [], _ => none
  | (k, e) :: rest, name => if k = name then some e else regLookup rest name

/-- Python truthiness of an optional string (`if text:` / `if title:`):
false for `None` and for the empty string. -/
def pyTruthy : Option PyStr → Bool
  | none => false
  | some s => !s.isEmpty

/-- The per-file body of the upload loop in `main` (lines 97-115): skip names
already in the registry, otherwise extract text, generate a title, and insert
the entry only when both results are truthy.  The two Booleans record whether
`extract_text_from_pdf` and `get_title_using_ai` were invoked. -/
def processFile (extract : Bytes → Option PyStr) (getTitle : PyStr → Option PyStr)
    (reg : Registry) (name : PyStr) (content : Bytes) :
    Registry × Bool × Bool :=
  if (regLookup reg name).isSome then
    (reg, false, false)
  else
    let text := extract content
    if pyTruthy text then
      let title := getTitle (text.getD [])
      if pyTruthy title then
        (reg ++ ((name,
            Entry.mk content ((title.getD []) ++ ('.' :: 'p' :: 'd' :: 'f' :: []))
              name) :: []),
          true, true)
      else (reg, true, true)
    else (reg, true, false)

/-- The proposed-name edit (line 143):
`st.session_state.processed_files[original_name]['proposed_name'] = new_name`.
Only the entry keyed by `name` changes, and only its `proposed_name` field. -/
def set_proposed_name : Registry → PyStr → PyStr → Registry
  | [], _, _ => []
  | (k, e) :: rest, name, newName =>
    (if k = name then (k, Entry.mk e.content newName e.original_name) else (k, e))
      :: set_proposed_name rest name newName

/-- One rendered row (lines 130-156): the text-input widget holds
`editedName`, the registry entry's `proposed_name` is overwritten with it,
and the download button serves `file_info['content']` under `new_name`.  The
second component is the download action: file name and served bytes. -/
def renderRow (reg : Registry) (name editedName : PyStr) :
    Registry × Option (PyStr × Bytes) :=
  match regLookup reg name with
  | none => (reg, none)
  | some e => (set_proposed_name reg name editedName, some (editedName, e.content))

/-- C5: re-uploading a name that is already registered leaves the registry
with exactly the first entry for that name and invokes neither
`extract_text_from_pdf` nor `get_title_using_ai` (both flags `false`). -/
theorem processFile_idempotent
    (extract : Bytes → Option PyStr) (getTitle : PyStr → Option PyStr)
    (reg : Registry) (name : PyStr) (content : Bytes) (e : Entry)
    (h : regLookup reg name = some e) :
    processFile extract getTitle reg name content = (reg, false, false) ∧
    regLookup (processFile extract getTitle reg name content).1 name = some e := by
  have hs : (regLookup reg name).isSome = true := by rw [h]; rfl
  refine ⟨by simp [processFile, hs], ?_⟩
  simp [processFile, hs, h]

/-- Witness for C5 at a one-entry registry. -/
theorem processFile_idempotent_witness :
    processFile (fun _ => some ('t' :: [])) (fun _ => some ('t' :: []))
        ((('f' :: []), Entry.mk (1 :: []) ('t' :: []) ('f' :: [])) :: [])
        ('f' :: []) (2 :: []) =
      (((('f' :: []), Entry.mk (1 :: []) ('t' :: []) ('f' :: [])) :: []),
        false, false) ∧
    regLookup (processFile (fun _ => some ('t' :: [])) (fun _ => some ('t' :: []))
        ((('f' :: []), Entry.mk (1 :: []) ('t' :: []) ('f' :: [])) :: [])
        ('f' :: []) (2 :: [])).1 ('f' :: []) =
      some (Entry.mk (1 :: []) ('t' :: []) ('f' :: [])) :=
  processFile_idempotent (fun _ => some ('t' :: [])) (fun _ => some ('t' :: []))
    ((('f' :: []), Entry.mk (1 :: []) ('t' :: []) ('f' :: [])) :: [])
    ('f' :: []) (2 :: []) (Entry.mk (1 :: []) ('t' :: []) ('f' :: [])) (by decide)

theorem regLookup_set_proposed_name (reg : Registry) (k v name : PyStr) (e : Entry)
    (h : regLookup reg name = some e) :
    regLookup (set_proposed_name reg k v) name =
      some (if k = name then Entry.mk e.content v e.original_name else e) := by
  induction reg with
  | nil => simp [regLookup] at h
  | cons kv rest ih =>
    obtain ⟨k0, e0⟩ := kv
    rw [set_proposed_name]
    by_cases hk0 : k0 = name
    · have he : e0 = e := by
        rw [regLookup, if_pos hk0] at h
        exact Option.some.inj h
      subst he
      by_cases hkk : k0 = k
      · rw [if_pos hkk, regLookup, if_pos hk0, if_pos (hkk.symm.trans hk0)]
      · rw [if_neg hkk, regLookup, if_pos hk0,
          if_neg (show ¬k = name from fun hkn => hkk (hk0.trans hkn.symm))]
    · rw [regLookup, if_neg hk0] at h
      by_cases hkk : k0 = k
      · rw [if_pos hkk, regLookup, if_neg hk0]
        exact ih h
      · rw [if_neg hkk, regLookup, if_neg hk0]
        exact ih h

theorem regLookup_foldl_edits (name : PyStr) (edits : List (PyStr × PyStr)) :
    ∀ (reg : Registry) (e : Entry), regLookup reg name = some e →
      ∃ p, regLookup
          (edits.foldl (fun r kv => set_proposed_name r kv.1 kv.2) reg) name =
        some (Entry.mk e.content p e.original_name) := by
  induction edits with
  | nil =>
    intro reg e h
    refine ⟨e.proposed_name, ?_⟩
    rw [List.foldl_nil, h]
  | cons kv rest ih =>
    intro reg e h
    rw [List.foldl_cons]
    have h1 := regLookup_set_proposed_name reg kv.1 kv.2 name e h
    by_cases hk : kv.1 = name
    · rw [if_pos hk] at h1
      obtain ⟨p, hp⟩ := ih _ _ h1
      exact ⟨p, hp⟩
    · rw [if_neg hk] at h1
      exact ih _ _ h1

/-- C6: after `set_proposed_name`, reading the entry returns the new name,
and any sequence of proposed-name edits leaves the entry's `content` bytes
and `original_name` unchanged. -/
theorem set_proposed_name_edit_law
    (reg : Registry) (name newName : PyStr) (e : Entry)
    (h : regLookup reg name = some e) :
    regLookup (set_proposed_name reg name newName) name =
      some (Entry.mk e.content newName e.original_name) ∧
    ∀ edits : List (PyStr × PyStr),
      ∃ p, regLookup
          (edits.foldl (fun r kv => set_proposed_name r kv.1 kv.2) reg) name =
        some (Entry.mk e.content p e.original_name) := by
  constructor
  · have h1 := regLookup_set_proposed_name reg name newName name e h
    rwa [if_pos rfl] at h1
  · intro edits
    exact regLookup_foldl_edits name edits reg e h

/-- Witness for C6: one edit on a one-entry registry. -/
theorem set_proposed_name_edit_law_witness :
    regLookup
        (set_proposed_name
          ((('f' :: []), Entry.mk (1 :: []) ('t' :: []) ('f' :: [])) :: [])
          ('f' :: []) ('u' :: [])) ('f' :: []) =
      some (Entry.mk (1 :: []) ('u' :: []) ('f' :: [])) ∧
    ∀ edits : List (PyStr × PyStr),
      ∃ p, regLookup
          (edits.foldl (fun r kv => set_proposed_name r kv.1 kv.2)
            ((('f' :: []), Entry.mk (1 :: []) ('t' :: []) ('f' :: [])) :: []))
          ('f' :: []) =
        some (Entry.mk (1 :: []) p ('f' :: [])) :=
  set_proposed_name_edit_law
    ((('f' :: []), Entry.mk (1 :: []) ('t' :: []) ('f' :: [])) :: [])
    ('f' :: []) ('u' :: []) (Entry.mk (1 :: []) ('t' :: []) ('f' :: []))
    (by decide)

/-- C7: when a file not yet registered fails extraction (no truthy text) or
title generation (no truthy title), `processFile` leaves the registry exactly
as it was: no entry for that key is created. -/
theorem processFile_failure_leaves_registry
    (extract : Bytes → Option PyStr) (getTitle : PyStr → Option PyStr)
    (reg : Registry) (name : PyStr) (content : Bytes)
    (habs : regLookup reg name = none)
    (hfail : pyTruthy (extract content) = false
           ∨ pyTruthy (getTitle ((extract content).getD [])) = false) :
    (processFile extract getTitle reg name content).1 = reg ∧
    regLookup (processFile extract getTitle reg name content).1 name = none := by
  have hs : (regLookup reg name).isSome = false := by rw [habs]; rfl
  have hreg : (processFile extract getTitle reg name content).1 = reg := by
    rcases hfail with hf | hf
    · simp [processFile, hs, hf]
    · by_cases ht : pyTruthy (extract content) <;> simp [processFile, hs, ht, hf]
  exact ⟨hreg, by rw [hreg]; exact habs⟩

/-- Witness for C7 at a summarizer whose post-processed title is empty. -/
theorem processFile_failure_leaves_registry_witness :
    (processFile (fun _ => some ('a' :: [])) (fun _ => some []) [] ('f' :: [])
      (1 :: [])).1 = [] ∧
    regLookup (processFile (fun _ => some ('a' :: [])) (fun _ => some [])
      [] ('f' :: []) (1 :: [])).1 ('f' :: []) = none :=
  processFile_failure_leaves_registry (fun _ => some ('a' :: []))
    (fun _ => some []) [] ('f' :: []) (1 :: []) (by decide) (Or.inr (by decide))

/-- C8: for a registered entry, the download action of a rendered row serves
bytes identical to the originally uploaded content under exactly the current
proposed name — the name edited in the same render pass, which is also what
the registry then holds for that entry. -/
theorem renderRow_download_matches
    (reg : Registry) (name editedName : PyStr) (e : Entry)
    (h : regLookup reg name = some e) :
    (renderRow reg name editedName).2 = some (editedName, e.content) ∧
    regLookup (renderRow reg name editedName).1 name =
      some (Entry.mk e.content editedName e.original_name) := by
  unfold renderRow
  rw [h]
  refine ⟨rfl, ?_⟩
  have h1 := regLookup_set_proposed_name reg name editedName name e h
  rwa [if_pos rfl] at h1

/-- Witness for C8 on a one-entry registry with an edited name. -/
theorem renderRow_download_matches_witness :
    (renderRow ((('f' :: []), Entry.mk (1 :: []) ('t' :: []) ('f' :: [])) :: [])
        ('f' :: []) ('u' :: [])).2 = some (('u' :: []), (1 :: [])) ∧
    regLookup (renderRow
        ((('f' :: []), Entry.mk (1 :: []) ('t' :: []) ('f' :: [])) :: [])
        ('f' :: []) ('u' :: [])).1 ('f' :: []) =
      some (Entry.mk (1 :: []) ('u' :: []) ('f' :: [])) :=
  renderRow_download_matches
    ((('f' :: []), Entry.mk (1 :: []) ('t' :: []) ('f' :: [])) :: [])
    ('f' :: []) ('u' :: []) (Entry.mk (1 :: []) ('t' :: []) ('f' :: []))
    (by decide)

/-- The summarization pipeline handle returned by `load_model`.  `run` takes
the input text, the `do_sample` flag, and a random draw standing for any
sampler randomness; `none` models the inference call raising. -/
structure SummarizerModel where
  run : PyStr → Bool → Nat → Option PyStr

/-- Modelled from the spec: "Deterministic decoding — generation strategy
that always selects the highest-likelihood output, disabling random
sampling."  The pipeline is external to this repository; its documented
contract is that with `do_sample = false` the output is independent of the
random draw. -/
def DeterministicDecoding (m : SummarizerModel) : Prop :=
  ∀ t r r', m.run t false r = m.run t false r'

/-- `get_title_using_ai` with the summarizer call spelled out as in lines
49-54: the code passes `do_sample=False` to the pipeline; `r` is the ambient
sampler randomness of the run. -/
def get_title_with_model (m : SummarizerModel) (text : PyStr) (r : Nat) :
    Option PyStr :=
  match m.run (text.take 1024) false r with
  | none => none
  | some summary => some (titlePost summary)

/-- C9: because the code fixes `do_sample=False` and the post-processing is a
pure function, two runs of the title generator on identical input with the
same model handle yield identical output, whatever randomness each run
carries. -/
theorem get_title_deterministic (m : SummarizerModel)
    (hdet : DeterministicDecoding m) (text : PyStr) (r1 r2 : Nat) :
    get_title_with_model m text r1 = get_title_with_model m text r2 := by
  unfold get_title_with_model
  rw [hdet (text.take 1024) r1 r2]

/-- Witness for C9 at an echoing model. -/
theorem get_title_deterministic_witness :
    get_title_with_model (SummarizerModel.mk (fun t _ _ => some t))
        ('a' :: []) 0 =
      get_title_with_model (SummarizerModel.mk (fun t _ _ => some t))
        ('a' :: []) 1 :=
  get_title_deterministic (SummarizerModel.mk (fun t _ _ => some t))
    (fun _ _ _ => rfl) ('a' :: []) 0 1

/-- C10: when the stripped-and-collapsed summary is empty or begins with a
period, `get_title_using_ai` returns the empty string (`some []`, not
`None`), and `processFile` — whose truthiness test `if title:` rejects the
empty string — leaves the registry unchanged while both steps were invoked
(no error was raised). -/
theorem empty_title_file_excluded
    (summarize : PyStr → Option PyStr) (extract : Bytes → Option PyStr)
    (reg : Registry) (name : PyStr) (content : Bytes) (text summary : PyStr)
    (habs : regLookup reg name = none)
    (hext : extract content = some text) (htext : text ≠ [])
    (hsum : summarize (text.take 1024) = some summary)
    (hdead : collapseWs (pyStrip summary) = [] ∨
      (collapseWs (pyStrip summary)).head? = some '.') :
    get_title_using_ai summarize text = some [] ∧
    processFile extract (get_title_using_ai summarize) reg name content =
      (reg, true, true) := by
  have htp : titlePost summary = [] := by
    unfold titlePost splitDot0
    rcases hdead with h | h
    · rw [h]
      rfl
    · cases hcw : collapseWs (pyStrip summary) with
      | nil => rfl
      | cons c rest =>
        rw [hcw] at h
        simp only [List.head?_cons, Option.some.injEq] at h
        subst h
        rfl
  have htitle : get_title_using_ai summarize text = some [] := by
    unfold get_title_using_ai
    rw [hsum]
    exact congrArg some htp
  refine ⟨htitle, ?_⟩
  have hs : (regLookup reg name).isSome = false := by rw [habs]; rfl
  have htx : pyTruthy (extract content) = true := by
    rw [hext]
    simpa [pyTruthy] using htext
  have htt : pyTruthy (get_title_using_ai summarize
      ((extract content).getD [])) = false := by
    rw [hext]
    simp [Option.getD, htitle, pyTruthy]
  simp [processFile, hs, htx, htt]

/-- Witness for C10: a summary collapsing to a string that starts with a
period. -/
theorem empty_title_file_excluded_witness :
    get_title_using_ai (fun _ => some ('.' :: 'x' :: [])) ('a' :: []) =
      some [] ∧
    processFile (fun _ => some ('a' :: []))
        (get_title_using_ai (fun _ => some ('.' :: 'x' :: [])))
        [] ('f' :: []) (1 :: []) =
      ([], true, true) :=
  empty_title_file_excluded (fun _ => some ('.' :: 'x' :: []))
    (fun _ => some ('a' :: [])) [] ('f' :: []) (1 :: [])
    ('a' :: []) ('.' :: 'x' :: []) rfl rfl (by decide) rfl
    (Or.inr (by decide))
